import Mathlib

/-!
Verification of the natural-language specification of
`src/gui/assistant_dialogs.py` (assistant configuration, export and dictation
dialogs) against a shallow embedding of its logic.

Text is modelled as `List Char`.  Python dictionaries are modelled as
insertion-ordered association lists, matching CPython semantics.  Qt widgets
are modelled by the data they hold (text content, items, checked flags); the
cursor of a text edit is modelled as sitting at the end of the buffer, which
is the position the dictation flow establishes.
-/

set_option maxHeartbeats 1000000

namespace AssistantDialogs

/-! ## Dictation bridge (`on_user_input`, `on_user_input_complete`) -/

/-- State of the dictation bridge of `AssistantConfigDialog`: the plain-text
content of the `newInstructionsEdit` widget and `self.currentHypothesis`
(the empty list playing the role of Python's falsy `""`). -/
structure DictState where
  buffer : List Char
  currentHypothesis : List Char
deriving DecidableEq

/-- Largest index `i ≤ n` at which `sep` occurs in `s` (scanning downwards),
`none` if there is no such occurrence. -/
def lastMatchAux (s sep : List Char) : Nat → Option Nat
  | 0 => if sep.isPrefixOf (s.drop 0) then some 0 else none
  | n + 1 => if sep.isPrefixOf (s.drop (n + 1)) then some (n + 1) else lastMatchAux s sep n

/-- Index of the last occurrence of `sep` in `s`, if any. -/
def lastMatch (s sep : List Char) : Option Nat :=
  lastMatchAux s sep s.length

/-- Python `s.rsplit(sep, 1)[0]` for non-empty `sep`: everything strictly before
the last occurrence of `sep` in `s`; all of `s` when `sep` does not occur. -/
def rsplitHead (s sep : List Char) : List Char :=
  match lastMatch s sep with
  | some i => s.take i
  | none => s

/-- `AssistantConfigDialog.on_user_input` (lines 398-408): on an incremental
hypothesis `text`, if a previous hypothesis exists the buffer is replaced by
`currentText.rsplit(self.currentHypothesis, 1)[0] + text`; otherwise `text` is
inserted at the cursor (modelled at the end of the buffer).  In both cases the
new hypothesis becomes `text`. -/
def on_user_input (st : DictState) (text : List Char) : DictState :=
  if st.currentHypothesis ≠ [] then
    { buffer := rsplitHead st.buffer st.currentHypothesis ++ text
      currentHypothesis := text }
  else
    { buffer := st.buffer ++ text
      currentHypothesis := text }

/-- Qt `QTextEdit.append`: appends `text` as a new paragraph (a preceding line
break when the document is non-empty). -/
def qtAppend (buffer text : List Char) : List Char :=
  if buffer = [] then text else buffer ++ '\n' :: text

/-- `AssistantConfigDialog.on_user_input_complete` (lines 410-422): on a final
result `text`, the same replacement as `on_user_input` followed by `"\n"`, or
`QTextEdit.append` when no hypothesis is pending; the hypothesis is cleared. -/
def on_user_input_complete (st : DictState) (text : List Char) : DictState :=
  if st.currentHypothesis ≠ [] then
    { buffer := rsplitHead st.buffer st.currentHypothesis ++ text ++ ['\n']
      currentHypothesis := [] }
  else
    { buffer := qtAppend st.buffer text
      currentHypothesis := [] }

/-! ## Capability ("function") selection -/

/-- A capability definition (`FunctionConfig` of the management SDK) as this
dialog consumes it: a name and the rest of its specification document,
accessed only through `get_full_spec`. -/
structure FunctionConfig where
  name : List Char
  spec_body : List Char
deriving DecidableEq

/-- A full capability specification document, as stored in
`selected_functions`; `function_name` models the access path
`spec['function']['name']`. -/
structure FunctionFullSpec where
  function_name : List Char
  body : List Char
deriving DecidableEq

/-- `FunctionConfig.get_full_spec`: the full specification document of a
capability; its `['function']['name']` entry is the capability's name. -/
def get_full_spec (fc : FunctionConfig) : FunctionFullSpec :=
  ⟨fc.name, fc.spec_body⟩

/-- Modelled from the spec: the membership test
`functionConfig not in self.selected_functions` (line 519) compares a
`FunctionConfig` object of the management SDK, whose equality is defined
outside this file's source, with stored full-specification documents.  The
spec describes the selection as "keyed by capability name (not object
identity) to avoid duplicates", so the test is modelled as name equality. -/
def configInSpecs (fc : FunctionConfig) (sel : List FunctionFullSpec) : Bool :=
  sel.any fun f => f.function_name == fc.name

/-- `AssistantConfigDialog.handle_function_selection` (lines 517-522): `state`
is the Qt check state (`0` unchecked, `2` checked).  On check, the full spec
is appended unless already present; on uncheck, every entry whose
`['function']['name']` equals the capability's name is removed. -/
def handle_function_selection (sel : List FunctionFullSpec) (state : Nat)
    (fc : FunctionConfig) : List FunctionFullSpec :=
  if state = 2 then
    if configInSpecs fc sel then sel else sel ++ [get_full_spec fc]
  else if state = 0 then
    sel.filter fun f => !(f.function_name == fc.name)
  else
    sel

/-- One row of checkbox state within a function section: the capability bound
to the checkbox (its text is the capability's name) and the checked flag. -/
abbrev CheckRow := FunctionConfig × Bool

/-- Marking pass of `pre_select_functions` over the checkboxes of one function
section: every checkbox whose text equals `fname` is set checked; setting a
previously unchecked box fires its `stateChanged` handler, which runs
`handle_function_selection` with state `Checked` and that box's capability. -/
def sectionSetChecked : List CheckRow → List FunctionFullSpec → List Char →
    List CheckRow × List FunctionFullSpec
  | [], sel, _ => ([], sel)
  | b :: rest, sel, fname =>
    if b.1.name == fname then
      if b.2 then
        let r := sectionSetChecked rest sel fname
        ((b.1, true) :: r.1, r.2)
      else
        let sel1 := handle_function_selection sel 2 b.1
        let r := sectionSetChecked rest sel1 fname
        ((b.1, true) :: r.1, r.2)
    else
      let r := sectionSetChecked rest sel fname
      (b :: r.1, r.2)

/-- The inner loop of `pre_select_functions` for one matching category: the
checkbox rows stored under key `ftype` (`self.checkBoxes.get(func_type, [])`)
receive the marking pass for `fname`. -/
def updateCategory : List (List Char × List CheckRow) → List FunctionFullSpec →
    List Char → List Char → List (List Char × List CheckRow) × List FunctionFullSpec
  | [], sel, _, _ => ([], sel)
  | e :: rest, sel, ftype, fname =>
    if e.1 == ftype then
      let r1 := sectionSetChecked e.2 sel fname
      let r2 := updateCategory rest r1.2 ftype fname
      ((e.1, r1.1) :: r2.1, r2.2)
    else
      let r := updateCategory rest sel ftype fname
      (e :: r.1, r.2)

/-- Processing of a single stored selection entry by `pre_select_functions`
(lines 491-503): for each category whose capability list contains a capability
named `fname`, the checkboxes of that category with text `fname` are checked. -/
def pre_select_entry (fcs : List (List Char × List FunctionConfig))
    (boxes : List (List Char × List CheckRow)) (sel : List FunctionFullSpec)
    (fname : List Char) :
    List (List Char × List CheckRow) × List FunctionFullSpec :=
  fcs.foldl
    (fun acc p =>
      if p.2.any (fun c => c.name == fname) then updateCategory acc.1 acc.2 p.1 fname
      else acc)
    (boxes, sel)

/-- `AssistantConfigDialog.pre_select_functions`: iterates over the stored
selection entries, reconciling each against the known capability definitions
`fcs`; entries whose name matches no known capability cause no update and no
error. -/
def pre_select_functions (fcs : List (List Char × List FunctionConfig))
    (boxes : List (List Char × List CheckRow)) (sel : List FunctionFullSpec)
    (stored : List FunctionFullSpec) :
    List (List Char × List CheckRow) × List FunctionFullSpec :=
  stored.foldl (fun acc s => pre_select_entry fcs acc.1 acc.2 s.function_name)
    (boxes, sel)

/-- The checkbox sections as `create_function_section` builds them: one row per
capability of each category, initially unchecked. -/
def initBoxes (fcs : List (List Char × List FunctionConfig)) :
    List (List Char × List CheckRow) :=
  fcs.map fun p => (p.1, p.2.map fun c => (c, false))

/-- The checkbox sections with the checked flag of each capability `c` given
by `g c.name`; used to state what reconciliation computes. -/
def mirrorFlags (fcs : List (List Char × List FunctionConfig))
    (g : List Char → Bool) : List (List Char × List CheckRow) :=
  fcs.map fun p => (p.1, p.2.map fun c => (c, g c.name))

/-- Effect of the marking pass on a single checkbox row. -/
def markRow (fname : List Char) (b : CheckRow) : CheckRow :=
  (b.1, if b.1.name == fname then true else b.2)

/-- Whether some known category contains a capability named `fname` and is
keyed `t`: the condition under which `pre_select_functions` touches the
checkbox section stored under `t`. -/
def condAny (fcs : List (List Char × List FunctionConfig)) (t fname : List Char) : Bool :=
  fcs.any fun p => p.1 == t && p.2.any fun c => c.name == fname

/-! ## Dialog form state -/

/-- A stored assistant profile (`AssistantConfig` of the management SDK) as
`pre_load_assistant_config` reads it. -/
structure AssistantConfig where
  name : List Char
  assistant_id : List Char
  instructions : List Char
  model : List Char
  knowledge_files : List (List Char × Option (List Char))
  selected_functions : List FunctionFullSpec
  knowledge_retrieval : Bool
  code_interpreter : Bool
  output_folder_path : List Char
deriving DecidableEq

/-- The form state of `AssistantConfigDialog`: the data content of its widgets
(`nameEdit`, `instructionsEdit`, the editable model combo box, the knowledge
file list, the per-category function checkboxes, the two tool checkboxes,
`outputFolderPathEdit`) together with the attributes `init_variables` and
`init_speech_input` create. -/
structure DialogState where
  nameEdit : List Char
  nameEditEnabled : Bool
  instructionsEdit : List Char
  modelItems : List (List Char)
  modelText : List Char
  createAsNewEnabled : Bool
  is_create : Bool
  knowledge_files_dict : List (List Char × Option (List Char))
  knowledgeFileList : List (List Char)
  checkBoxes : List (List Char × List CheckRow)
  selected_functions : List FunctionFullSpec
  knowledge_retrieval : Bool
  code_interpreter : Bool
  knowledgeRetrievalCheckBox : Bool
  codeInterpreterCheckBox : Bool
  outputFolderPath : List Char
  default_output_folder_path : List Char
  assistant_id : List Char
  assistant_config : Option AssistantConfig
  assistant_type : List Char
  ai_client_type_text : List Char
  currentHypothesis : List Char
  newInstructionsEdit : List Char
deriving DecidableEq

/-- `AssistantConfigDialog.reset_fields` (lines 326-342).  Unchecking the
function checkboxes fires their `Unchecked` handlers, which remove entries
from `selected_functions`; the method then assigns `selected_functions = []`
anyway, which is the modelled net effect.  The code-interpreter checkbox is
only unchecked for the `"assistant"` dialog subtype, and neither the
dictation state (`currentHypothesis`, `newInstructionsEdit`) nor the
knowledge-retrieval checkbox widget is touched. -/
def reset_fields (st : DialogState) : DialogState :=
  { st with
    nameEdit := []
    instructionsEdit := []
    modelText := st.modelItems.headD []
    knowledge_files_dict := []
    knowledgeFileList := []
    checkBoxes := st.checkBoxes.map fun p => (p.1, p.2.map fun b => (b.1, false))
    selected_functions := []
    knowledge_retrieval := false
    code_interpreter := false
    codeInterpreterCheckBox :=
      if st.assistant_type = "assistant".data then false else st.codeInterpreterCheckBox
    outputFolderPath := []
    assistant_config := none }

/-- Python `self.knowledge_files_dict[file_path] = file_id` on an
insertion-ordered dictionary: overwrite the value if the key exists,
otherwise append a new entry. -/
def dictInsert (d : List (List Char × Option (List Char))) (k : List Char)
    (v : Option (List Char)) : List (List Char × Option (List Char)) :=
  if d.any (fun kv => kv.1 == k) then d.map fun kv => if kv.1 == k then (k, v) else kv
  else d ++ [(k, v)]

/-- `AssistantConfigDialog.add_file` (lines 524-533): `filePath` is what the
file dialog returned (empty on cancel).  An already-present path only raises
a warning box and changes nothing. -/
def add_file (st : DialogState) (filePath : List Char) : DialogState :=
  if filePath ≠ [] then
    if st.knowledge_files_dict.any (fun kv => kv.1 == filePath) then st
    else
      { st with
        knowledge_files_dict := st.knowledge_files_dict ++ [(filePath, none)]
        knowledgeFileList := st.knowledgeFileList ++ [filePath] }
  else st

/-- `AssistantConfigDialog.remove_file` (lines 535-541): for each selected
list item, its key is deleted from the dictionary (`del`, whose precondition
holds because selected items are rows of the list, which mirrors the keys)
and its row is removed from the list widget. -/
def remove_file (st : DialogState) (selected : List (List Char)) : DialogState :=
  selected.foldl
    (fun s t =>
      { s with
        knowledge_files_dict := s.knowledge_files_dict.filter fun kv => !(kv.1 == t)
        knowledgeFileList := s.knowledgeFileList.erase t })
    st

/-- One iteration of the knowledge-file loop of `pre_load_assistant_config`
(lines 472-474): `self.knowledge_files_dict[file_path] = file_id` followed by
`self.knowledgeFileList.addItem(file_path)`. -/
def kfLoadStep (s : DialogState) (kv : List Char × Option (List Char)) : DialogState :=
  { s with
    knowledge_files_dict := dictInsert s.knowledge_files_dict kv.1 kv.2
    knowledgeFileList := s.knowledgeFileList ++ [kv.1] }

/-- `AssistantConfigDialog.pre_load_assistant_config` (lines 455-489):
`lookup` models `AssistantConfigManager.get_instance().get_config`.  When the
profile exists, the form fields are populated from it; `pre_select_functions`
runs against the known capability definitions `fcs`; the stored output folder
path is applied only when non-empty. -/
def pre_load_assistant_config (st : DialogState)
    (fcs : List (List Char × List FunctionConfig))
    (lookup : List Char → Option AssistantConfig) (name : List Char) : DialogState :=
  match lookup name with
  | none => { st with assistant_config := none }
  | some cfg =>
    let st1 := { st with
      assistant_config := some cfg
      nameEdit := cfg.name
      assistant_id := cfg.assistant_id
      instructionsEdit := cfg.instructions }
    let st2 :=
      if cfg.model ∈ st1.modelItems then { st1 with modelText := cfg.model }
      else { st1 with modelItems := st1.modelItems ++ [cfg.model], modelText := cfg.model }
    let st3 := cfg.knowledge_files.foldl kfLoadStep st2
    let r := pre_select_functions fcs st3.checkBoxes st3.selected_functions
      cfg.selected_functions
    let st4 := { st3 with checkBoxes := r.1, selected_functions := r.2 }
    let st5 := { st4 with
      knowledge_retrieval := cfg.knowledge_retrieval
      knowledgeRetrievalCheckBox := cfg.knowledge_retrieval
      code_interpreter := cfg.code_interpreter
      codeInterpreterCheckBox :=
        if st4.assistant_type = "assistant".data then cfg.code_interpreter
        else st4.codeInterpreterCheckBox }
    if cfg.output_folder_path ≠ [] then
      { st5 with outputFolderPath := cfg.output_folder_path }
    else st5

/-- `AssistantConfigDialog.assistant_selection_changed` (lines 307-321):
always resets the fields first, then either prepares a new profile or loads
the selected stored profile. -/
def assistant_selection_changed (st : DialogState)
    (fcs : List (List Char × List FunctionConfig))
    (lookup : List Char → Option AssistantConfig)
    (selected_assistant : List Char) : DialogState :=
  let st1 := reset_fields st
  if selected_assistant = "New Assistant".data then
    { st1 with
      is_create := true
      nameEditEnabled := true
      createAsNewEnabled := false
      outputFolderPath := st1.default_output_folder_path }
  else if selected_assistant ≠ [] then
    let st2 := pre_load_assistant_config { st1 with is_create := false } fcs lookup
      selected_assistant
    { st2 with createAsNewEnabled := true, nameEditEnabled := false }
  else st1

/-- The serialized profile document `save_configuration` builds (the `config`
dictionary of lines 544-557, the persisted JSON object of the spec). -/
structure AssistantConfigDoc where
  name : List Char
  instructions : List Char
  model : List Char
  assistant_id : List Char
  knowledge_files : List (List Char × Option (List Char))
  selected_functions : List FunctionFullSpec
  knowledge_retrieval : Bool
  code_interpreter : Bool
  output_folder_path : List Char
  ai_client_type : List Char
  assistant_type : List Char
deriving DecidableEq

/-- `AssistantConfigDialog.save_configuration` (lines 543-563): the document
is assembled from the form, then validated; when name, instructions or model
is empty only an error box is shown and the method returns — `none` models
"no serialized configuration produced, dialog not accepted".  `some doc`
models `self.assistant_config_json = json.dumps(config)` plus `accept()`. -/
def save_configuration (st : DialogState) : Option AssistantConfigDoc :=
  let config : AssistantConfigDoc := {
    name := st.nameEdit
    instructions := st.instructionsEdit
    model := st.modelText
    assistant_id := if st.is_create then [] else st.assistant_id
    knowledge_files := st.knowledge_files_dict
    selected_functions := st.selected_functions
    knowledge_retrieval := st.knowledge_retrieval
    code_interpreter := st.code_interpreter
    output_folder_path := st.outputFolderPath
    ai_client_type := st.ai_client_type_text
    assistant_type := st.assistant_type }
  if config.name = [] ∨ config.instructions = [] ∨ config.model = [] then none
  else some config

/-- The invariant of claim C10: the rows shown in the knowledge-file list are
exactly the keys of the knowledge-file dictionary, without duplicates. -/
def kfInv (st : DialogState) : Prop :=
  st.knowledgeFileList = st.knowledge_files_dict.map (fun kv => kv.1)
    ∧ st.knowledgeFileList.Nodup

/-- A concrete dialog state used by witnesses and counterexamples. -/
def exSt : DialogState := {
  nameEdit := []
  nameEditEnabled := true
  instructionsEdit := ['d', 'o']
  modelItems := [['m', '1']]
  modelText := ['m', '1']
  createAsNewEnabled := false
  is_create := true
  knowledge_files_dict := [(['f'], none)]
  knowledgeFileList := [['f']]
  checkBoxes := [(['t'], [(⟨['X'], ['B']⟩, false)])]
  selected_functions := []
  knowledge_retrieval := false
  code_interpreter := false
  knowledgeRetrievalCheckBox := false
  codeInterpreterCheckBox := false
  outputFolderPath := ['o']
  default_output_folder_path := ['o']
  assistant_id := []
  assistant_config := none
  assistant_type := "assistant".data
  ai_client_type_text := ['O', 'A', 'I']
  currentHypothesis := ['a', 'b']
  newInstructionsEdit := ['a', 'b']
  }

/-- A concrete stored profile used by witnesses and counterexamples. -/
def exCfg : AssistantConfig := {
  name := ['P']
  assistant_id := ['i', 'd']
  instructions := ['d', 'o']
  model := ['m', '2']
  knowledge_files := [(['g'], some ['1'])]
  selected_functions := [⟨['X'], ['B']⟩]
  knowledge_retrieval := true
  code_interpreter := true
  output_folder_path := ['p']
  }

/-- A concrete profile store holding only `exCfg` under the name `"P"`. -/
def exLookup (n : List Char) : Option AssistantConfig :=
  if n = ['P'] then some exCfg else none

/-! ## Exporter (`ExportAssistantDialog.export_assistant`) -/

/-- The file system as the exporter sees it: the set of created directories
and the files with their contents. -/
structure FS where
  dirs : List (List Char)
  files : List (List Char × List Char)
deriving DecidableEq

/-- `os.path.exists` for a file. -/
def fileExists (fs : FS) (p : List Char) : Bool :=
  fs.files.any fun f => f.1 == p

/-- Reading a file's content, `none` when the file does not exist
(`FileNotFoundError` on open-for-read). -/
def readFile (fs : FS) (p : List Char) : Option (List Char) :=
  (fs.files.find? fun f => f.1 == p).map fun f => f.2

def writeEntries : List (List Char × List Char) → List Char → List Char →
    List (List Char × List Char)
  | [], p, c => [(p, c)]
  | e :: rest, p, c => if e.1 == p then (p, c) :: rest else e :: writeEntries rest p c

/-- Writing a file (open-for-write): overwrite the existing entry or create a
new one; directories are untouched. -/
def writeFile (fs : FS) (p c : List Char) : FS :=
  { fs with files := writeEntries fs.files p c }

/-- `os.makedirs(path, exist_ok=True)`: idempotent directory creation (the
creation of intermediate directories is subsumed by tracking the leaf). -/
def makedirs (fs : FS) (p : List Char) : FS :=
  if p ∈ fs.dirs then fs else { fs with dirs := fs.dirs ++ [p] }

/-- `os.path.join` on a POSIX path. -/
def pathJoin (a b : List Char) : List Char :=
  a ++ '/' :: b

/-- Python `str.replace`: replaces every non-overlapping occurrence of `pat`
by `rep`, scanning left to right (at the call site `pat` is the fixed
non-empty marker `"ASSISTANT_NAME"`). -/
def pyReplace : List Char → List Char → List Char → List Char
  | [], _, _ => []
  | c :: rest, pat, rep =>
    if pat ≠ [] ∧ pat.isPrefixOf (c :: rest) then
      rep ++ pyReplace (rest.drop (pat.length - 1)) pat rep
    else
      c :: pyReplace rest pat rep
termination_by s _ _ => s.length
decreasing_by
  · simp only [List.length_drop, List.length_cons]
    omega
  · simp only [List.length_cons]
    omega

def export_path (assistant_name : List Char) : List Char :=
  pathJoin "export".data assistant_name

def config_path (assistant_name : List Char) : List Char :=
  pathJoin (export_path assistant_name) "config".data

def functions_path (assistant_name : List Char) : List Char :=
  pathJoin (export_path assistant_name) "functions".data

/-- `f"config/{assistant_name}_assistant_config.json"`. -/
def cfg_src (assistant_name : List Char) : List Char :=
  "config/".data ++ assistant_name ++ "_assistant_config.json".data

def cfg_dst (assistant_name : List Char) : List Char :=
  pathJoin (config_path assistant_name)
    (assistant_name ++ "_assistant_config.json".data)

def err_src : List Char :=
  "config/function_error_specs.json".data

def err_dst (assistant_name : List Char) : List Char :=
  pathJoin (config_path assistant_name) "function_error_specs.json".data

def user_functions_src : List Char :=
  pathJoin "functions".data "user_functions.py".data

def template_path : List Char :=
  pathJoin "templates".data "main_template.py".data

def main_py_path (assistant_name : List Char) : List Char :=
  pathJoin (export_path assistant_name) "main.py".data

/-- Outcome of `export_assistant`: success, the "Failed to copy configuration
files" error box, or the "Failed to create main.py" error box. -/
inductive ExportResult where
  | success
  | exportFailedCopy
  | exportFailedMain
deriving DecidableEq

/-- `ExportAssistantDialog.export_assistant` (lines 589-626): create the two
export directories, copy the profile configuration and the shared
function-error-specification files (aborting with the copy error box if a
source is missing), copy `user_functions.py` when present, then read the
launcher template, substitute the `ASSISTANT_NAME` marker and write
`main.py` (aborting with the main.py error box if the template is
unreadable). -/
def export_assistant (fs : FS) (assistant_name : List Char) : FS × ExportResult :=
  let fs2 := makedirs (makedirs fs (config_path assistant_name))
    (functions_path assistant_name)
  match readFile fs2 (cfg_src assistant_name) with
  | none => (fs2, ExportResult.exportFailedCopy)
  | some c1 =>
    let fs3 := writeFile fs2 (cfg_dst assistant_name) c1
    match readFile fs3 err_src with
    | none => (fs3, ExportResult.exportFailedCopy)
    | some c2 =>
      let fs4 := writeFile fs3 (err_dst assistant_name) c2
      let fs5 :=
        match readFile fs4 user_functions_src with
        | some cu =>
          writeFile fs4 (pathJoin (functions_path assistant_name) "user_functions.py".data) cu
        | none => fs4
      match readFile fs5 template_path with
      | none => (fs5, ExportResult.exportFailedMain)
      | some tpl =>
        (writeFile fs5 (main_py_path assistant_name)
          (pyReplace tpl "ASSISTANT_NAME".data assistant_name),
         ExportResult.success)

/-! ## Theorems -/

/-! ### Lemmas about last occurrences -/

theorem isPrefixOf_drop_of_le_length {hyp buf : List Char} (hne : hyp ≠ [])
    {j : Nat} (hj : buf.length ≤ j) : hyp.isPrefixOf (buf.drop j) = false := by
  have hdrop : buf.drop j = [] := List.drop_eq_nil_of_le hj
  rw [hdrop]
  cases hyp with
  | nil => exact absurd rfl hne
  | cons c cs => rfl

theorem infix_of_isPrefixOf_drop {hyp buf : List Char} {i : Nat}
    (h : hyp.isPrefixOf (buf.drop i) = true) : hyp <:+: buf := by
  rw [List.isPrefixOf_iff_prefix] at h
  obtain ⟨t, ht⟩ := h
  exact ⟨buf.take i, t, by rw [List.append_assoc, ht, List.take_append_drop]⟩

theorem lastMatchAux_eq_none {buf hyp : List Char} :
    ∀ n, (∀ j, j ≤ n → hyp.isPrefixOf (buf.drop j) = false) →
      lastMatchAux buf hyp n = none := by
  intro n
  induction n with
  | zero =>
    intro h
    unfold lastMatchAux
    rw [h 0 (Nat.le_refl 0), if_neg Bool.false_ne_true]
  | succ n ih =>
    intro h
    unfold lastMatchAux
    rw [h (n + 1) (Nat.le_refl (n + 1)), if_neg Bool.false_ne_true]
    exact ih fun j hj => h j (Nat.le_succ_of_le hj)

theorem lastMatchAux_eq_some {buf hyp : List Char} {i : Nat} :
    ∀ n, i ≤ n → hyp.isPrefixOf (buf.drop i) = true →
      (∀ j, i < j → j ≤ n → hyp.isPrefixOf (buf.drop j) = false) →
      lastMatchAux buf hyp n = some i := by
  intro n
  induction n with
  | zero =>
    intro hin hpre _
    have : i = 0 := Nat.le_zero.mp hin
    subst this
    unfold lastMatchAux
    rw [hpre, if_pos rfl]
  | succ n ih =>
    intro hin hpre hlast
    by_cases htop : i = n + 1
    · subst htop
      unfold lastMatchAux
      rw [hpre, if_pos rfl]
    · have hlt : i ≤ n := Nat.lt_succ_iff.mp (Nat.lt_of_le_of_ne hin htop)
      have hfail : hyp.isPrefixOf (buf.drop (n + 1)) = false :=
        hlast (n + 1) (Nat.lt_succ_of_le hlt) (Nat.le_refl (n + 1))
      unfold lastMatchAux
      rw [hfail, if_neg Bool.false_ne_true]
      exact ih hlt hpre fun j hj hj' => hlast j hj (Nat.le_succ_of_le hj')

theorem lastMatch_eq_some {buf hyp : List Char} {i : Nat} (hne : hyp ≠ [])
    (hpre : hyp.isPrefixOf (buf.drop i) = true)
    (hlast : ∀ j, j ≤ buf.length → i < j → hyp.isPrefixOf (buf.drop j) = false) :
    lastMatch buf hyp = some i := by
  have hle : i ≤ buf.length := by
    by_contra hgt
    have := isPrefixOf_drop_of_le_length hne (Nat.le_of_lt (Nat.lt_of_not_le hgt))
    rw [hpre] at this
    exact Bool.true_eq_false.mp this
  exact lastMatchAux_eq_some buf.length hle hpre fun j hj hj' => hlast j hj' hj

theorem lastMatch_eq_none_of_not_infix {buf hyp : List Char} (hne : hyp ≠ [])
    (hni : ¬ hyp <:+: buf) : lastMatch buf hyp = none := by
  apply lastMatchAux_eq_none
  intro j _
  by_cases hj : buf.length ≤ j
  · exact isPrefixOf_drop_of_le_length hne hj
  · by_contra hpre
    have : hyp.isPrefixOf (buf.drop j) = true := by
      cases h : hyp.isPrefixOf (buf.drop j) with
      | false => exact absurd h hpre
      | true => rfl
    exact hni (infix_of_isPrefixOf_drop this)

/-! ## Claims C7, C8, C1, C9 -/

/-- Claim C7: starting from an empty buffer with no pending hypothesis,
`partial("ab")` followed by `partial("abc")` yields buffer `"abc"` with
pending hypothesis `"abc"`. -/
theorem incremental_twice_on_empty :
    on_user_input (on_user_input ⟨[], []⟩ ['a', 'b']) ['a', 'b', 'c']
      = ⟨['a', 'b', 'c'], ['a', 'b', 'c']⟩ := by decide

/-- Claim C8: starting from an empty buffer with no pending hypothesis,
`partial("ab")` followed by `final("abcd")` yields buffer `"abcd\n"` with the
pending hypothesis cleared. -/
theorem incremental_then_final_on_empty :
    on_user_input_complete (on_user_input ⟨[], []⟩ ['a', 'b']) ['a', 'b', 'c', 'd']
      = ⟨['a', 'b', 'c', 'd', '\n'], []⟩ := by decide

/-- Claim C1, as stated, is false: with buffer `"XY"` and pending hypothesis
`"X"` (which occurs in the buffer), `partial("Z")` yields buffer `"Z"`, not
`"ZY"`: the content `"Y"` after the last occurrence of the hypothesis is
discarded rather than left unchanged. -/
theorem replace_keeps_tail_counterexample :
    (['X'] : List Char) ≠ [] ∧ (['X'] : List Char) <:+: ['X', 'Y'] ∧
      on_user_input ⟨['X', 'Y'], ['X']⟩ ['Z'] ≠ ⟨['Z', 'Y'], ['Z']⟩ ∧
      on_user_input ⟨['X', 'Y'], ['X']⟩ ['Z'] = ⟨['Z'], ['Z']⟩ := by
  refine ⟨by decide, ⟨[], ['Y'], by decide⟩, by decide, by decide⟩

/-- Claim C1 (amended): when a non-empty pending hypothesis occurs in the
buffer, `partial(text)` removes the last occurrence of the hypothesis
*together with everything after it*, appends `text` to the content before that
occurrence, and the new pending hypothesis becomes `text`.  Here `i` is the
position of the last occurrence. -/
theorem replace_drops_last_occurrence_and_tail (buf hyp text : List Char) (i : Nat)
    (hne : hyp ≠ [])
    (hpre : hyp.isPrefixOf (buf.drop i) = true)
    (hlast : ∀ j, j ≤ buf.length → i < j → hyp.isPrefixOf (buf.drop j) = false) :
    on_user_input ⟨buf, hyp⟩ text = ⟨buf.take i ++ text, text⟩ := by
  simp only [on_user_input, hne, ne_eq, not_false_iff, if_true]
  have h := lastMatch_eq_some hne hpre hlast
  simp [rsplitHead, h]

/-- Witness for the amended claim C1 at buffer `"ab"`, hypothesis `"ab"`,
`partial("abc")`. -/
theorem replace_drops_last_occurrence_and_tail_witness :
    on_user_input ⟨['a', 'b'], ['a', 'b']⟩ ['a', 'b', 'c']
      = ⟨[] ++ ['a', 'b', 'c'], ['a', 'b', 'c']⟩ :=
  replace_drops_last_occurrence_and_tail ['a', 'b'] ['a', 'b'] ['a', 'b', 'c'] 0
    (by decide) (by decide)
    (by decide)

/-- Claim C9: when the non-empty pending hypothesis does not occur verbatim in
the buffer, the replacement step of both `partial(text)` and `final(text)`
degrades to appending `text` at the end of the unchanged buffer (plus the
usual trailing line break and hypothesis update of each event). -/
theorem missing_hypothesis_degrades_to_append (buf hyp text : List Char)
    (hne : hyp ≠ []) (hni : ¬ hyp <:+: buf) :
    on_user_input ⟨buf, hyp⟩ text = ⟨buf ++ text, text⟩ ∧
      on_user_input_complete ⟨buf, hyp⟩ text = ⟨buf ++ text ++ ['\n'], []⟩ := by
  have h := lastMatch_eq_none_of_not_infix hne hni
  constructor
  · simp [on_user_input, hne, rsplitHead, h]
  · simp [on_user_input_complete, hne, rsplitHead, h]

/-- Witness for C9 at buffer `"ab"`, hypothesis `"X"`, text `"c"`. -/
theorem missing_hypothesis_degrades_to_append_witness :
    on_user_input ⟨['a', 'b'], ['X']⟩ ['c'] = ⟨['a', 'b'] ++ ['c'], ['c']⟩ ∧
      on_user_input_complete ⟨['a', 'b'], ['X']⟩ ['c']
        = ⟨['a', 'b'] ++ ['c'] ++ ['\n'], []⟩ :=
  missing_hypothesis_degrades_to_append ['a', 'b'] ['X'] ['c'] (by decide) (by decide)

/-! ### Claim C6 -/

/-- Claim C6, as stated, is false: from a selection already containing an entry
for the capability's name, selecting and then deselecting that capability does
not return the selection to its prior state — deselection removes every entry
with that name, including the pre-existing one. -/
theorem toggle_roundtrip_counterexample :
    handle_function_selection
        (handle_function_selection [get_full_spec ⟨['X'], ['B']⟩] 2 ⟨['X'], ['B']⟩)
        0 ⟨['X'], ['B']⟩
      ≠ [get_full_spec ⟨['X'], ['B']⟩] := by decide

/-- Claim C6 (amended): selection is keyed by capability name, so selecting a
capability whose name already has an entry leaves the selection unchanged
(no duplicate entry for a name is introduced), and selecting then deselecting
a capability returns the selection to its prior state provided no entry with
that capability's name was already present. -/
theorem toggle_keyed_by_name (sel : List FunctionFullSpec) (fc : FunctionConfig) :
    (configInSpecs fc sel = true → handle_function_selection sel 2 fc = sel) ∧
      ((∀ f ∈ sel, f.function_name ≠ fc.name) →
        handle_function_selection (handle_function_selection sel 2 fc) 0 fc = sel) := by
  constructor
  · intro h
    simp [handle_function_selection, h]
  · intro h
    have hnotin : configInSpecs fc sel = false := by
      rw [configInSpecs, List.any_eq_false]
      intro f hf
      simpa using h f hf
    have hkeep : ∀ f ∈ sel, (!(f.function_name == fc.name)) = true := by
      intro f hf
      simpa using h f hf
    rw [show handle_function_selection sel 2 fc = sel ++ [get_full_spec fc] from by
      simp [handle_function_selection, hnotin]]
    rw [show handle_function_selection (sel ++ [get_full_spec fc]) 0 fc
        = List.filter (fun f => !(f.function_name == fc.name)) (sel ++ [get_full_spec fc])
      from by simp [handle_function_selection]]
    rw [List.filter_append, List.filter_eq_self.mpr hkeep]
    simp [get_full_spec]

/-- Witness for the amended claim C6: the no-duplicate part at a selection
already containing the name, and the round-trip part at the empty selection. -/
theorem toggle_keyed_by_name_witness :
    handle_function_selection [get_full_spec ⟨['X'], ['B']⟩] 2 ⟨['X'], ['B']⟩
        = [get_full_spec ⟨['X'], ['B']⟩] ∧
      handle_function_selection (handle_function_selection [] 2 ⟨['X'], ['B']⟩)
          0 ⟨['X'], ['B']⟩
        = [] :=
  ⟨(toggle_keyed_by_name [get_full_spec ⟨['X'], ['B']⟩] ⟨['X'], ['B']⟩).1 (by decide),
    (toggle_keyed_by_name [] ⟨['X'], ['B']⟩).2 (by simp)⟩

/-! ### Claim C5 -/

theorem to_false {b : Bool} (h : ¬ b = true) : b = false := by
  cases b with
  | false => rfl
  | true => exact absurd rfl h

theorem beq_symm_true {a b : List Char} (h : (a == b) = true) : (b == a) = true := by
  rw [eq_of_beq h]
  exact beq_self_eq_true b

theorem beq_symm_false {a b : List Char} (h : (a == b) = false) : (b == a) = false := by
  cases hb : b == a with
  | false => rfl
  | true =>
    rw [eq_of_beq hb, beq_self_eq_true] at h
    exact absurd h (by decide)

theorem markRow_map_idem (bs : List CheckRow) (fname : List Char) :
    (bs.map (markRow fname)).map (markRow fname) = bs.map (markRow fname) := by
  rw [List.map_map]
  apply List.map_congr_left
  intro b _
  by_cases h : (b.1.name == fname) = true
  · simp [markRow, h]
  · simp [markRow, h]

theorem sectionSetChecked_fst (bs : List CheckRow) (fname : List Char) :
    ∀ sel, (sectionSetChecked bs sel fname).1 = bs.map (markRow fname) := by
  induction bs with
  | nil => intro sel; rfl
  | cons b rest ih =>
    intro sel
    by_cases h1 : (b.1.name == fname) = true
    · by_cases h2 : b.2 = true
      · simp [sectionSetChecked, h1, h2, ih, markRow]
      · simp [sectionSetChecked, h1, h2, ih, markRow]
    · simp [sectionSetChecked, h1, ih, markRow]

theorem updateCategory_fst (boxes : List (List Char × List CheckRow))
    (ftype fname : List Char) :
    ∀ sel, (updateCategory boxes sel ftype fname).1
      = boxes.map fun e =>
          (e.1, if e.1 == ftype then e.2.map (markRow fname) else e.2) := by
  induction boxes with
  | nil => intro sel; rfl
  | cons e rest ih =>
    intro sel
    by_cases h : (e.1 == ftype) = true
    · have he : e.1 = ftype := eq_of_beq h
      simp [updateCategory, h, ih, sectionSetChecked_fst, he]
    · have hf : (e.1 == ftype) = false := to_false h
      have hne : ¬ e.1 = ftype := fun heq => h (by rw [heq]; exact beq_self_eq_true _)
      simp [updateCategory, hf, hne, ih]

theorem pre_select_entry_fst (fcs : List (List Char × List FunctionConfig)) :
    ∀ boxes sel fname,
      (pre_select_entry fcs boxes sel fname).1
        = boxes.map fun e =>
            (e.1, if condAny fcs e.1 fname then e.2.map (markRow fname) else e.2) := by
  induction fcs with
  | nil =>
    intro boxes sel fname
    simp [pre_select_entry, condAny]
  | cons p fcs ih =>
    intro boxes sel fname
    have step : pre_select_entry (p :: fcs) boxes sel fname
        = pre_select_entry fcs
            (if p.2.any (fun c => c.name == fname) then updateCategory boxes sel p.1 fname
             else (boxes, sel)).1
            (if p.2.any (fun c => c.name == fname) then updateCategory boxes sel p.1 fname
             else (boxes, sel)).2
            fname := rfl
    rw [step, ih]
    by_cases htest : (p.2.any fun c => c.name == fname) = true
    · rw [if_pos htest, updateCategory_fst, List.map_map]
      apply List.map_congr_left
      intro e _
      simp only [Function.comp_apply]
      by_cases hep : (e.1 == p.1) = true
      · have hpe : (p.1 == e.1) = true := beq_symm_true hep
        have hcons : condAny (p :: fcs) e.1 fname = true := by
          simp [condAny, List.any_cons, hpe, htest]
        rw [if_pos hep, if_pos hcons]
        by_cases hcond : condAny fcs e.1 fname = true
        · rw [if_pos hcond, markRow_map_idem]
        · rw [if_neg hcond]
      · have hpe : (p.1 == e.1) = false := beq_symm_false (to_false hep)
        have hcons : condAny (p :: fcs) e.1 fname = condAny fcs e.1 fname := by
          simp [condAny, List.any_cons, hpe]
        rw [if_neg hep, hcons]
    · rw [if_neg htest]
      apply List.map_congr_left
      intro e _
      dsimp only
      have htest' : (p.2.any fun c => c.name == fname) = false := to_false htest
      have hcons : condAny (p :: fcs) e.1 fname = condAny fcs e.1 fname := by
        simp [condAny, List.any_cons, htest']
      rw [hcons]

theorem pre_select_entry_mirror (fcs : List (List Char × List FunctionConfig))
    (g : List Char → Bool) (sel : List FunctionFullSpec) (m : List Char) :
    (pre_select_entry fcs (mirrorFlags fcs g) sel m).1
      = mirrorFlags fcs fun n => if n == m then true else g n := by
  rw [pre_select_entry_fst, mirrorFlags, mirrorFlags, List.map_map]
  apply List.map_congr_left
  intro p hp
  show (p.1, _) = (p.1, _)
  by_cases hc : condAny fcs p.1 m = true
  · rw [if_pos hc, List.map_map]
    apply congrArg
    apply List.map_congr_left
    intro c _
    rfl
  · have hc' : condAny fcs p.1 m = false := by
      cases hb : condAny fcs p.1 m with
      | true => exact absurd hb hc
      | false => rfl
    have hown : (p.2.any fun c => c.name == m) = false := by
      have hq := List.any_eq_false.mp hc' p hp
      cases hb : p.2.any fun c => c.name == m with
      | true =>
        exact absurd (by rw [beq_self_eq_true, hb]; rfl) hq
      | false => rfl
    have hall : ∀ c ∈ p.2, (c.name == m) = false := by
      intro c hcmem
      have := List.any_eq_false.mp hown c hcmem
      cases hb : c.name == m with
      | true => exact absurd hb this
      | false => rfl
    rw [if_neg (by rw [hc']; exact Bool.false_ne_true)]
    apply congrArg
    apply List.map_congr_left
    intro c hcmem
    rw [hall c hcmem, if_neg Bool.false_ne_true]

theorem pre_select_functions_mirror (fcs : List (List Char × List FunctionConfig)) :
    ∀ (stored : List FunctionFullSpec) (g : List Char → Bool)
      (sel : List FunctionFullSpec),
      (pre_select_functions fcs (mirrorFlags fcs g) sel stored).1
        = mirrorFlags fcs fun n => g n || stored.any fun s => s.function_name == n := by
  intro stored
  induction stored with
  | nil =>
    intro g sel
    have hg : (fun n => g n || List.any ([] : List FunctionFullSpec) fun s => s.function_name == n)
        = g := by
      funext n
      rw [List.any_nil, Bool.or_false]
    rw [hg]
    rfl
  | cons s rest ih =>
    intro g sel
    have step : pre_select_functions fcs (mirrorFlags fcs g) sel (s :: rest)
        = pre_select_functions fcs
            (pre_select_entry fcs (mirrorFlags fcs g) sel s.function_name).1
            (pre_select_entry fcs (mirrorFlags fcs g) sel s.function_name).2
            rest := rfl
    rw [step, pre_select_entry_mirror, ih]
    have hg : (fun n => (if n == s.function_name then true else g n)
                || rest.any fun s' => s'.function_name == n)
        = fun n => g n || (s :: rest).any fun s' => s'.function_name == n := by
      funext n
      rw [List.any_cons]
      by_cases h : (n == s.function_name) = true
      · rw [if_pos h, beq_symm_true h]
        simp
      · rw [if_neg h, to_false (fun hb => h (beq_symm_true hb)), Bool.false_or]
    rw [hg]

/-- Claim C5: reconciliation of a stored selection list against the known
capability definitions.  Starting from the freshly built, fully unchecked
checkbox sections, `pre_select_functions` marks selected exactly the
checkboxes of capabilities whose name occurs among the stored entries: every
stored entry whose name matches a known capability (in whatever category) is
marked selected, and every stored entry whose name matches no known
capability contributes nothing — it is silently dropped, no error being
surfaced (the operation is total). -/
theorem reconcile_marks_known_and_drops_unknown
    (fcs : List (List Char × List FunctionConfig)) (stored : List FunctionFullSpec) :
    (pre_select_functions fcs (initBoxes fcs) [] stored).1
      = mirrorFlags fcs fun n => stored.any fun s => s.function_name == n := by
  have hinit : initBoxes fcs = mirrorFlags fcs fun _ => false := rfl
  rw [hinit, pre_select_functions_mirror]
  have hg : (fun n => false || stored.any fun s => s.function_name == n)
      = fun n => stored.any fun s => s.function_name == n := by
    funext n
    rw [Bool.false_or]
  rw [hg]

/-! ### Claim C2 -/

/-- Claim C2: saving a profile whose name, instructions or model is empty
always fails validation and performs no write — no serialized configuration
document is produced and the dialog is not accepted. -/
theorem save_empty_required_field_no_write (st : DialogState)
    (h : st.nameEdit = [] ∨ st.instructionsEdit = [] ∨ st.modelText = []) :
    save_configuration st = none := by
  simp only [save_configuration]
  exact if_pos h

/-- Witness for C2 at a concrete state with an empty name. -/
theorem save_empty_required_field_no_write_witness :
    save_configuration exSt = none :=
  save_empty_required_field_no_write exSt (Or.inl rfl)

/-! ### Claim C4 -/

theorem foldl_kfLoadStep_currentHypothesis
    (kvs : List (List Char × Option (List Char))) :
    ∀ s : DialogState, (List.foldl kfLoadStep s kvs).currentHypothesis
      = s.currentHypothesis := by
  induction kvs with
  | nil => intro s; rfl
  | cons kv rest ih =>
    intro s
    rw [List.foldl_cons, ih]
    rfl

theorem pre_load_currentHypothesis (st : DialogState)
    (fcs : List (List Char × List FunctionConfig))
    (lookup : List Char → Option AssistantConfig) (name : List Char) :
    (pre_load_assistant_config st fcs lookup name).currentHypothesis
      = st.currentHypothesis := by
  unfold pre_load_assistant_config
  cases hl : lookup name with
  | none => rfl
  | some cfg =>
    dsimp only
    by_cases hm : cfg.model ∈ st.modelItems
    · rw [if_pos hm]
      by_cases ho : cfg.output_folder_path ≠ []
      · rw [if_pos ho]
        exact foldl_kfLoadStep_currentHypothesis _ _
      · rw [if_neg ho]
        exact foldl_kfLoadStep_currentHypothesis _ _
    · rw [if_neg hm]
      by_cases ho : cfg.output_folder_path ≠ []
      · rw [if_pos ho]
        exact foldl_kfLoadStep_currentHypothesis _ _
      · rw [if_neg ho]
        exact foldl_kfLoadStep_currentHypothesis _ _

/-- Claim C4, as stated, is false: with a pending dictation hypothesis
`"ab"`, loading the stored profile `"P"` through
`assistant_selection_changed` (which calls `reset_fields` first) leaves the
pending hypothesis at `"ab"` — neither `reset_fields` nor the load path ever
clears `currentHypothesis`. -/
theorem load_clears_hypothesis_counterexample :
    exSt.currentHypothesis = ['a', 'b'] ∧
      (assistant_selection_changed exSt [(['t'], [⟨['X'], ['B']⟩])] exLookup
        ['P']).currentHypothesis = ['a', 'b'] := by
  constructor
  · rfl
  · decide

/-- Claim C4 (amended): loading a stored profile first resets the form fields
and the capability selection set (via `reset_fields`), but the dictation
buffer's pending hypothesis is *not* among the reset state: it survives both
`reset_fields` and the whole `assistant_selection_changed` load path
unchanged. -/
theorem load_resets_selection_not_hypothesis (st : DialogState) :
    (reset_fields st).selected_functions = [] ∧
      (reset_fields st).knowledge_files_dict = [] ∧
      (reset_fields st).currentHypothesis = st.currentHypothesis ∧
      ∀ fcs lookup selected,
        (assistant_selection_changed st fcs lookup selected).currentHypothesis
          = st.currentHypothesis := by
  refine ⟨rfl, rfl, rfl, ?_⟩
  intro fcs lookup selected
  unfold assistant_selection_changed
  by_cases h1 : selected = "New Assistant".data
  · rw [if_pos h1]
    rfl
  · rw [if_neg h1]
    by_cases h2 : selected ≠ []
    · rw [if_pos h2]
      exact pre_load_currentHypothesis _ _ _ _
    · rw [if_neg h2]
      rfl

/-! ### Claim C10 -/

theorem map_fst_filter (d : List (List Char × Option (List Char))) (t : List Char) :
    (d.filter fun kv => !(kv.1 == t)).map (fun kv => kv.1)
      = (d.map fun kv => kv.1).filter fun k => !(k == t) := by
  induction d with
  | nil => rfl
  | cons kv rest ih =>
    by_cases h : (kv.1 == t) = true
    · simp only [List.filter_cons, List.map_cons, h, Bool.not_true, Bool.false_eq_true,
        if_false, ih]
    · have hf := to_false h
      simp only [List.filter_cons, List.map_cons, hf, Bool.not_false, if_true,
        List.map_cons, ih]

theorem notMem_keys_of_any_false {d : List (List Char × Option (List Char))}
    {k : List Char} (h : (d.any fun e => e.1 == k) = false) :
    k ∉ d.map fun kv => kv.1 := by
  intro hmem
  obtain ⟨e, he, heq⟩ := List.mem_map.mp hmem
  exact List.any_eq_false.mp h e he (by rw [heq]; exact beq_self_eq_true k)

theorem remove_file_kfInv (selected : List (List Char)) :
    ∀ st : DialogState, kfInv st → kfInv (remove_file st selected) := by
  induction selected with
  | nil => intro st hinv; exact hinv
  | cons t rest ih =>
    intro st hinv
    show kfInv (remove_file _ rest)
    apply ih
    constructor
    · show st.knowledgeFileList.erase t
        = (st.knowledge_files_dict.filter fun kv => !(kv.1 == t)).map fun kv => kv.1
      rw [map_fst_filter, hinv.2.erase_eq_filter t, hinv.1]
      rfl
    · exact hinv.2.erase t

theorem foldl_kfLoadStep_kfInv (kvs : List (List Char × Option (List Char))) :
    ∀ s : DialogState, kfInv s →
      (kvs.map fun kv => kv.1).Nodup →
      (∀ kv ∈ kvs, (s.knowledge_files_dict.any fun e => e.1 == kv.1) = false) →
      kfInv (List.foldl kfLoadStep s kvs) := by
  induction kvs with
  | nil => intro s hinv _ _; exact hinv
  | cons kv rest ih =>
    intro s hinv hnd hfresh
    have hany : (s.knowledge_files_dict.any fun e => e.1 == kv.1) = false :=
      hfresh kv (List.mem_cons_self _ _)
    have hnd' := List.nodup_cons.mp hnd
    rw [List.foldl_cons]
    apply ih
    · constructor
      · show s.knowledgeFileList ++ [kv.1]
          = (dictInsert s.knowledge_files_dict kv.1 kv.2).map fun kv => kv.1
        rw [dictInsert, if_neg (by rw [hany]; exact Bool.false_ne_true),
          List.map_append, hinv.1]
        rfl
      · show (s.knowledgeFileList ++ [kv.1]).Nodup
        have hnm : kv.1 ∉ s.knowledgeFileList := by
          rw [hinv.1]
          exact notMem_keys_of_any_false hany
        rw [List.nodup_append]
        refine ⟨hinv.2, List.nodup_singleton _, ?_⟩
        intro a ha hfa
        rw [List.mem_singleton] at hfa
        exact hnm (hfa ▸ ha)
    · exact hnd'.2
    · intro kv' hkv'
      show ((dictInsert s.knowledge_files_dict kv.1 kv.2).any fun e => e.1 == kv'.1) = false
      rw [dictInsert, if_neg (by rw [hany]; exact Bool.false_ne_true), List.any_append]
      rw [hfresh kv' (List.mem_cons_of_mem _ hkv'), Bool.false_or]
      show (kv.1 == kv'.1 || false) = false
      have hne : (kv.1 == kv'.1) = false := by
        cases hb : kv.1 == kv'.1 with
        | false => rfl
        | true =>
          exact absurd (List.mem_map.mpr ⟨kv', hkv', (eq_of_beq hb).symm⟩) hnd'.1
      rw [hne]
      rfl

theorem pre_load_kfInv (st : DialogState)
    (fcs : List (List Char × List FunctionConfig))
    (lookup : List Char → Option AssistantConfig) (name : List Char)
    (hinv : kfInv st)
    (hnd : ∀ c, lookup name = some c → (c.knowledge_files.map fun kv => kv.1).Nodup)
    (hfresh : ∀ c, lookup name = some c → ∀ kv ∈ c.knowledge_files,
      (st.knowledge_files_dict.any fun e => e.1 == kv.1) = false) :
    kfInv (pre_load_assistant_config st fcs lookup name) := by
  unfold pre_load_assistant_config
  cases hl : lookup name with
  | none => exact hinv
  | some cfg =>
    dsimp only
    by_cases hm : cfg.model ∈ st.modelItems
    · rw [if_pos hm]
      by_cases ho : cfg.output_folder_path ≠ []
      · rw [if_pos ho]
        exact foldl_kfLoadStep_kfInv cfg.knowledge_files _ hinv (hnd cfg hl)
          (fun kv hkv => hfresh cfg hl kv hkv)
      · rw [if_neg ho]
        exact foldl_kfLoadStep_kfInv cfg.knowledge_files _ hinv (hnd cfg hl)
          (fun kv hkv => hfresh cfg hl kv hkv)
    · rw [if_neg hm]
      by_cases ho : cfg.output_folder_path ≠ []
      · rw [if_pos ho]
        exact foldl_kfLoadStep_kfInv cfg.knowledge_files _ hinv (hnd cfg hl)
          (fun kv hkv => hfresh cfg hl kv hkv)
      · rw [if_neg ho]
        exact foldl_kfLoadStep_kfInv cfg.knowledge_files _ hinv (hnd cfg hl)
          (fun kv hkv => hfresh cfg hl kv hkv)

/-- Claim C10: every knowledge-file operation — adding a file, removing
selected files, resetting the form, and loading a stored profile (whose
knowledge files come from a Python dictionary, hence with distinct keys) —
preserves the invariant that the rows shown in the knowledge-file list are
exactly the keys of the knowledge-file mapping; and adding a path already
present in the mapping is rejected, changing neither the mapping nor the
list. -/
theorem knowledge_files_list_dict_consistent (st : DialogState) (hinv : kfInv st) :
    (∀ fp, kfInv (add_file st fp)) ∧
      (∀ fp, fp ∈ st.knowledge_files_dict.map (fun kv => kv.1) → add_file st fp = st) ∧
      (∀ selected, kfInv (remove_file st selected)) ∧
      kfInv (reset_fields st) ∧
      (∀ fcs lookup selected,
        (∀ n c, lookup n = some c → (c.knowledge_files.map fun kv => kv.1).Nodup) →
        kfInv (assistant_selection_changed st fcs lookup selected)) := by
  refine ⟨?_, ?_, ?_, ⟨rfl, List.nodup_nil⟩, ?_⟩
  · intro fp
    unfold add_file
    by_cases h0 : fp ≠ []
    · rw [if_pos h0]
      by_cases h1 : (st.knowledge_files_dict.any fun kv => kv.1 == fp) = true
      · rw [if_pos h1]
        exact hinv
      · rw [if_neg h1]
        constructor
        · show st.knowledgeFileList ++ [fp]
            = (st.knowledge_files_dict ++ [(fp, (none : Option (List Char)))]).map
                fun kv => kv.1
          rw [List.map_append, hinv.1]
          rfl
        · show (st.knowledgeFileList ++ [fp]).Nodup
          have hnm : fp ∉ st.knowledgeFileList := by
            rw [hinv.1]
            exact notMem_keys_of_any_false (to_false h1)
          rw [List.nodup_append]
          refine ⟨hinv.2, List.nodup_singleton _, ?_⟩
          intro a ha hfa
          rw [List.mem_singleton] at hfa
          exact hnm (hfa ▸ ha)
    · rw [if_neg h0]
      exact hinv
  · intro fp hmem
    unfold add_file
    by_cases h0 : fp ≠ []
    · rw [if_pos h0]
      have h1 : (st.knowledge_files_dict.any fun kv => kv.1 == fp) = true := by
        obtain ⟨kv, hkv, heq⟩ := List.mem_map.mp hmem
        exact List.any_eq_true.mpr ⟨kv, hkv, by rw [heq]; exact beq_self_eq_true fp⟩
      rw [if_pos h1]
    · rw [if_neg h0]
  · intro selected
    exact remove_file_kfInv selected st hinv
  · intro fcs lookup selected hlk
    unfold assistant_selection_changed
    by_cases h1 : selected = "New Assistant".data
    · rw [if_pos h1]
      exact ⟨rfl, List.nodup_nil⟩
    · rw [if_neg h1]
      by_cases h2 : selected ≠ []
      · rw [if_pos h2]
        exact pre_load_kfInv _ fcs lookup selected ⟨rfl, List.nodup_nil⟩
          (fun c hc => hlk selected c hc) (fun c hc kv hkv => rfl)
      · rw [if_neg h2]
        exact ⟨rfl, List.nodup_nil⟩

/-- Witness for C10 at the concrete state `exSt` (one knowledge file `"f"`),
adding a fresh file `"g"`, re-adding `"f"`, removing `"f"`, resetting, and
loading the stored profile `"P"`. -/
theorem knowledge_files_list_dict_consistent_witness :
    kfInv (add_file exSt ['g']) ∧ add_file exSt ['f'] = exSt ∧
      kfInv (remove_file exSt [['f']]) ∧ kfInv (reset_fields exSt) ∧
      kfInv (assistant_selection_changed exSt [(['t'], [⟨['X'], ['B']⟩])] exLookup
        ['P']) := by
  have hinv : kfInv exSt := by
    refine ⟨rfl, ?_⟩
    decide
  have h := knowledge_files_list_dict_consistent exSt hinv
  have hlk : ∀ n c, exLookup n = some c →
      (c.knowledge_files.map fun kv => kv.1).Nodup := by
    intro n c hc
    by_cases hn : n = ['P']
    · rw [exLookup, if_pos hn] at hc
      cases hc
      decide
    · rw [exLookup, if_neg hn] at hc
      exact Option.noConfusion hc
  exact ⟨h.1 ['g'], h.2.1 ['f'] (by decide), h.2.2.1 [['f']], h.2.2.2.1,
    h.2.2.2.2 [(['t'], [⟨['X'], ['B']⟩])] exLookup ['P'] hlk⟩

/-! ### Claim C3 -/

theorem readFile_makedirs (fs : FS) (p q : List Char) :
    readFile (makedirs fs p) q = readFile fs q := by
  unfold makedirs
  by_cases h : p ∈ fs.dirs
  · rw [if_pos h]
  · rw [if_neg h]
    rfl

theorem makedirs_mem_self (fs : FS) (p : List Char) : p ∈ (makedirs fs p).dirs := by
  unfold makedirs
  by_cases h : p ∈ fs.dirs
  · rw [if_pos h]
    exact h
  · rw [if_neg h]
    exact List.mem_append.mpr (Or.inr (List.mem_singleton.mpr rfl))

theorem makedirs_mem_mono (fs : FS) (p d : List Char) (h : d ∈ fs.dirs) :
    d ∈ (makedirs fs p).dirs := by
  unfold makedirs
  by_cases hp : p ∈ fs.dirs
  · rw [if_pos hp]
    exact h
  · rw [if_neg hp]
    exact List.mem_append.mpr (Or.inl h)

theorem find?_writeEntries_ne (l : List (List Char × List Char)) (p c q : List Char)
    (h : p ≠ q) :
    (writeEntries l p c).find? (fun f => f.1 == q) = l.find? (fun f => f.1 == q) := by
  have hpq : (p == q) = false := beq_eq_false_iff_ne.mpr h
  induction l with
  | nil =>
    show List.find? _ [(p, c)] = List.find? _ []
    simp only [List.find?]
    rw [hpq]
  | cons e rest ih =>
    by_cases he : (e.1 == p) = true
    · have hep : e.1 = p := eq_of_beq he
      have heq : (e.1 == q) = false := beq_eq_false_iff_ne.mpr (by rw [hep]; exact h)
      simp only [writeEntries, he, if_true]
      simp only [List.find?]
      rw [hpq, heq]
    · have he' := to_false he
      simp only [writeEntries, he', Bool.false_eq_true, if_false]
      simp only [List.find?]
      by_cases hq : (e.1 == q) = true
      · rw [hq]
      · rw [to_false hq]
        exact ih

theorem readFile_writeFile_ne (fs : FS) (p c q : List Char) (h : p ≠ q) :
    readFile (writeFile fs p c) q = readFile fs q := by
  unfold readFile writeFile
  rw [find?_writeEntries_ne _ _ _ _ h]

theorem readFile_eq_none_of_not_exists {fs : FS} {p : List Char}
    (h : fileExists fs p = false) : readFile fs p = none := by
  have : (fs.files.find? fun f => f.1 == p) = none :=
    List.find?_eq_none.mpr fun x hx => List.any_eq_false.mp h x hx
  rw [readFile, this]
  rfl

theorem cfg_dst_ne_err_src (name : List Char) : cfg_dst name ≠ err_src := by
  intro h
  have hh := congrArg List.head? h
  rw [show (cfg_dst name).head? = some 'e' from rfl,
    show err_src.head? = some 'c' from rfl] at hh
  exact absurd (Option.some.inj hh) (by decide)

theorem cfg_dst_ne_main_py (name : List Char) : cfg_dst name ≠ main_py_path name := by
  intro h
  have hlen := congrArg List.length h
  simp only [cfg_dst, main_py_path, config_path, export_path, pathJoin,
    List.length_append, List.length_cons, List.length_nil] at hlen
  omega

/-- Claim C3: when the named profile's configuration file or the shared
function-error-specification file does not exist, `export_assistant` has
already created the `config` and `functions` directories, then stops with the
copy-failure error before reaching template substitution: no `main.py` is
written (its content, existing or absent, is untouched) and already-created
artifacts — in particular all pre-existing and newly created directories —
are left in place with no rollback. -/
theorem export_missing_source_stops_before_template (fs : FS) (name : List Char)
    (h : fileExists fs (cfg_src name) = false ∨ fileExists fs err_src = false) :
    (export_assistant fs name).2 = ExportResult.exportFailedCopy ∧
      config_path name ∈ (export_assistant fs name).1.dirs ∧
      functions_path name ∈ (export_assistant fs name).1.dirs ∧
      (∀ d ∈ fs.dirs, d ∈ (export_assistant fs name).1.dirs) ∧
      readFile (export_assistant fs name).1 (main_py_path name)
        = readFile fs (main_py_path name) := by
  have hdirs_cfg : config_path name
      ∈ (makedirs (makedirs fs (config_path name)) (functions_path name)).dirs :=
    makedirs_mem_mono _ _ _ (makedirs_mem_self _ _)
  have hdirs_fn : functions_path name
      ∈ (makedirs (makedirs fs (config_path name)) (functions_path name)).dirs :=
    makedirs_mem_self _ _
  have hdirs_mono : ∀ d ∈ fs.dirs,
      d ∈ (makedirs (makedirs fs (config_path name)) (functions_path name)).dirs :=
    fun d hd => makedirs_mem_mono _ _ _ (makedirs_mem_mono _ _ _ hd)
  have hread2 : ∀ q,
      readFile (makedirs (makedirs fs (config_path name)) (functions_path name)) q
        = readFile fs q :=
    fun q => by rw [readFile_makedirs, readFile_makedirs]
  cases hc1 : readFile (makedirs (makedirs fs (config_path name)) (functions_path name))
      (cfg_src name) with
  | none =>
    have hres : export_assistant fs name
        = (makedirs (makedirs fs (config_path name)) (functions_path name),
           ExportResult.exportFailedCopy) := by
      simp only [export_assistant]
      rw [hc1]
    rw [hres]
    exact ⟨rfl, hdirs_cfg, hdirs_fn, hdirs_mono, hread2 _⟩
  | some c1 =>
    have herr : fileExists fs err_src = false := by
      cases h with
      | inl hcfg =>
        have hnone := readFile_eq_none_of_not_exists hcfg
        rw [← hread2 (cfg_src name), hc1] at hnone
        exact Option.noConfusion hnone
      | inr he => exact he
    have hc2 : readFile (writeFile (makedirs (makedirs fs (config_path name))
        (functions_path name)) (cfg_dst name) c1) err_src = none := by
      rw [readFile_writeFile_ne _ _ _ _ (cfg_dst_ne_err_src name), hread2]
      exact readFile_eq_none_of_not_exists herr
    have hres : export_assistant fs name
        = (writeFile (makedirs (makedirs fs (config_path name)) (functions_path name))
            (cfg_dst name) c1, ExportResult.exportFailedCopy) := by
      simp only [export_assistant]
      rw [hc1]
      dsimp only
      rw [hc2]
    rw [hres]
    refine ⟨rfl, hdirs_cfg, hdirs_fn, hdirs_mono, ?_⟩
    rw [readFile_writeFile_ne _ _ _ _ (cfg_dst_ne_main_py name), hread2]

/-- Witness for C3 on an empty file system (both source files missing) with
profile name `"a"`. -/
theorem export_missing_source_stops_before_template_witness :
    (export_assistant ⟨[], []⟩ ['a']).2 = ExportResult.exportFailedCopy ∧
      config_path ['a'] ∈ (export_assistant ⟨[], []⟩ ['a']).1.dirs ∧
      functions_path ['a'] ∈ (export_assistant ⟨[], []⟩ ['a']).1.dirs ∧
      (∀ d ∈ (⟨[], []⟩ : FS).dirs, d ∈ (export_assistant ⟨[], []⟩ ['a']).1.dirs) ∧
      readFile (export_assistant ⟨[], []⟩ ['a']).1 (main_py_path ['a'])
        = readFile ⟨[], []⟩ (main_py_path ['a']) :=
  export_missing_source_stops_before_template ⟨[], []⟩ ['a'] (Or.inl rfl)

end AssistantDialogs
